import Mathlib

/-!
Shallow embedding of the local authentication and encrypted-backup subsystem
of the expense-tracker repository: the encoding helpers (bufToHex / hexToBuf),
the PBKDF2-based password hashing and credential verification, the HMAC
session signer/verifier, the AES-GCM backup cipher wrappers, the password
strength evaluator, and the input sanitizer.

The cryptographic primitives themselves (PBKDF2, HMAC-SHA-256, AES-GCM) are
Web Crypto calls in the source; they enter the embedding as explicit function
parameters, so every theorem states exactly which property of the primitive it
relies on.  All string and array manipulation around those calls is translated
from the source, with JavaScript semantics (split, parseInt, Uint8Array
conversion, truthiness checks) modelled explicitly.
-/

namespace Settle

/-! ## JavaScript string and number helpers -/

/-- JS `String.prototype.split(sep)` for a single-character separator, on the
underlying character list.  `"".split(c)` is `[""]`, a trailing separator
yields a trailing empty segment. -/
def splitChars (sep : Char) : List Char → List (List Char)
  | [] => [[]]
  | c :: rest =>
    if c = sep then [] :: splitChars sep rest
    else
      match splitChars sep rest with
      | [] => [[c]]
      | h :: t => (c :: h) :: t

/-- JS `s.split(sep)` for a one-character separator string. -/
def jsSplit (sep : Char) (s : String) : List String :=
  (splitChars sep s.data).map String.mk

/-- Whitespace accepted by JS `parseInt` before the number (StrWhiteSpaceChar:
the common ASCII whitespace plus NBSP and BOM). -/
def jsIsWhitespace (c : Char) : Bool :=
  c = ' ' || c = '\t' || c = '\n' || c = '\r' ||
  c = Char.ofNat 0x0b || c = Char.ofNat 0x0c ||
  c = Char.ofNat 0xa0 || c = Char.ofNat 0xfeff

/-- Value of a hexadecimal digit (both cases), `none` otherwise. -/
def hexVal (c : Char) : Option Nat :=
  if '0' ≤ c ∧ c ≤ '9' then some (c.toNat - '0'.toNat)
  else if 'a' ≤ c ∧ c ≤ 'f' then some (c.toNat - 'a'.toNat + 10)
  else if 'A' ≤ c ∧ c ≤ 'F' then some (c.toNat - 'A'.toNat + 10)
  else none

/-- Drop an optional `0x` / `0X` marker, as JS `parseInt` does for radix 16. -/
def stripHexMarker : List Char → List Char
  | '0' :: 'x' :: rest => rest
  | '0' :: 'X' :: rest => rest
  | cs => cs

/-- JS `parseInt(s, 16)`: skip whitespace, optional sign, optional `0x`
marker, then read the longest hexadecimal-digit prefix; `none` models `NaN`
(no digit found). -/
def jsParseIntHex (s : String) : Option Int :=
  let cs := s.data.dropWhile (fun c => jsIsWhitespace c)
  let signed : Int × List Char :=
    match cs with
    | '-' :: rest => (-1, rest)
    | '+' :: rest => (1, rest)
    | _ => (1, cs)
  let digits := (stripHexMarker signed.2).takeWhile (fun c => (hexVal c).isSome)
  if digits.isEmpty then none
  else
    some (signed.1 * (digits.foldl (fun acc c => 16 * acc + ((hexVal c).getD 0)) 0 : Nat))

/-- Storing a JS number into a `Uint8Array` slot (ToUint8): `NaN` becomes 0,
otherwise the integer is taken modulo 2^8 (Euclidean, hence non-negative). -/
def toUint8 : Option Int → Nat
  | none => 0
  | some i => (i.emod 256).toNat

/-- Lowercase hexadecimal digit character for a value below 16. -/
def hexDigitChar (n : Nat) : Char :=
  if n < 10 then Char.ofNat ('0'.toNat + n) else Char.ofNat ('a'.toNat + n - 10)

/-- JS `b.toString(16).padStart(2, '0')` for a `Uint8Array` element
(a byte, so the value is below 256). -/
def jsByteToHex (b : Nat) : String :=
  if b < 16 then String.mk ['0', hexDigitChar b]
  else String.mk [hexDigitChar (b / 16), hexDigitChar (b % 16)]

/-- Source `bufToHex`: map each byte to two hex digits and join with `""`. -/
def bufToHex : List Nat → String
  | [] => ""
  | b :: rest => jsByteToHex b ++ bufToHex rest

/-- The byte-parsing loop of source `hexToBuf`:
`bytes[i / 2] = parseInt(hex.substr(i, 2), 16)` for `i = 0, 2, …`. -/
def parsePairs : List Char → List Nat
  | c1 :: c2 :: rest => toUint8 (jsParseIntHex (String.mk [c1, c2])) :: parsePairs rest
  | [c] => [toUint8 (jsParseIntHex (String.mk [c]))]
  | [] => []

/-- Source `hexToBuf`.  `new Uint8Array(hex.length / 2)` throws a RangeError
when the length is odd (non-integer typed-array length), modelled as
`Except.error ()`; otherwise the pairs are parsed as above. -/
def hexToBuf (hex : String) : Except Unit (List Nat) :=
  if hex.length % 2 ≠ 0 then Except.error ()
  else Except.ok (parsePairs hex.data)

/-! ## Lemmas about the helpers -/

theorem splitChars_ne_nil (sep : Char) (l : List Char) : splitChars sep l ≠ [] := by
  cases l with
  | nil => simp [splitChars]
  | cons c rest =>
    simp only [splitChars]
    split
    · simp
    · split <;> simp

theorem splitChars_append_of_not_mem (sep : Char) (xs ys : List Char) (h : sep ∉ xs) :
    splitChars sep (xs ++ ys) = (splitChars sep ys).modifyHead (fun l => xs ++ l) := by
  induction xs with
  | nil =>
    cases hys : splitChars sep ys with
    | nil => exact absurd hys (splitChars_ne_nil sep ys)
    | cons a t => simp [List.modifyHead, hys]
  | cons x xs' ih =>
    have hx : x ≠ sep := fun hEq => h (hEq ▸ List.mem_cons_self x xs')
    have hxs' : sep ∉ xs' := fun hm => h (List.mem_cons_of_mem x hm)
    cases hys : splitChars sep ys with
    | nil => exact absurd hys (splitChars_ne_nil sep ys)
    | cons a t =>
      simp only [List.cons_append, splitChars, if_neg hx, List.append_eq, ih hxs', hys,
        List.modifyHead]

theorem splitChars_sep_cons (sep : Char) (ys : List Char) :
    splitChars sep (sep :: ys) = [] :: splitChars sep ys := by
  simp [splitChars]

theorem splitChars_of_not_mem (sep : Char) (xs : List Char) (h : sep ∉ xs) :
    splitChars sep xs = [xs] := by
  have := splitChars_append_of_not_mem sep xs [] h
  simpa [splitChars, List.modifyHead] using this

theorem splitChars_three (sep : Char) (a b c : List Char)
    (ha : sep ∉ a) (hb : sep ∉ b) (hc : sep ∉ c) :
    splitChars sep (a ++ sep :: (b ++ sep :: c)) = [a, b, c] := by
  rw [splitChars_append_of_not_mem sep a _ ha, splitChars_sep_cons,
    splitChars_append_of_not_mem sep b _ hb, splitChars_sep_cons,
    splitChars_of_not_mem sep c hc]
  simp [List.modifyHead]

theorem string_data_append (a b : String) : (a ++ b).data = a.data ++ b.data := rfl

theorem string_mk_data (s : String) : String.mk s.data = s := rfl

set_option maxRecDepth 4096 in
theorem jsByteToHex_spec (b : Nat) (hb : b < 256) :
    (jsByteToHex b).data.length = 2 ∧
    toUint8 (jsParseIntHex (String.mk (jsByteToHex b).data)) = b ∧
    ':' ∉ (jsByteToHex b).data ∧ '.' ∉ (jsByteToHex b).data := by
  revert hb
  revert b
  decide

theorem bufToHex_data_cons (b : Nat) (rest : List Nat) :
    (bufToHex (b :: rest)).data = (jsByteToHex b).data ++ (bufToHex rest).data := rfl

theorem bufToHex_length (bs : List Nat) (hb : ∀ b ∈ bs, b < 256) :
    (bufToHex bs).data.length = 2 * bs.length := by
  induction bs with
  | nil => rfl
  | cons b rest ih =>
    have hb0 : b < 256 := hb b (List.mem_cons_self b rest)
    have hrest : ∀ x ∈ rest, x < 256 := fun x hx => hb x (List.mem_cons_of_mem b hx)
    rw [bufToHex_data_cons, List.length_append, (jsByteToHex_spec b hb0).1, ih hrest,
      List.length_cons]
    ring

theorem bufToHex_not_mem_colon (bs : List Nat) (hb : ∀ b ∈ bs, b < 256) :
    ':' ∉ (bufToHex bs).data := by
  induction bs with
  | nil => simp [bufToHex]
  | cons b rest ih =>
    have hb0 : b < 256 := hb b (List.mem_cons_self b rest)
    have hrest : ∀ x ∈ rest, x < 256 := fun x hx => hb x (List.mem_cons_of_mem b hx)
    rw [bufToHex_data_cons]
    intro hmem
    rcases List.mem_append.mp hmem with h1 | h2
    · exact (jsByteToHex_spec b hb0).2.2.1 h1
    · exact ih hrest h2

theorem bufToHex_not_mem_dot (bs : List Nat) (hb : ∀ b ∈ bs, b < 256) :
    '.' ∉ (bufToHex bs).data := by
  induction bs with
  | nil => simp [bufToHex]
  | cons b rest ih =>
    have hb0 : b < 256 := hb b (List.mem_cons_self b rest)
    have hrest : ∀ x ∈ rest, x < 256 := fun x hx => hb x (List.mem_cons_of_mem b hx)
    rw [bufToHex_data_cons]
    intro hmem
    rcases List.mem_append.mp hmem with h1 | h2
    · exact (jsByteToHex_spec b hb0).2.2.2 h1
    · exact ih hrest h2

theorem parsePairs_bufToHex (bs : List Nat) (hb : ∀ b ∈ bs, b < 256) :
    parsePairs (bufToHex bs).data = bs := by
  induction bs with
  | nil => rfl
  | cons b rest ih =>
    have hb0 : b < 256 := hb b (List.mem_cons_self b rest)
    have hrest : ∀ x ∈ rest, x < 256 := fun x hx => hb x (List.mem_cons_of_mem b hx)
    obtain ⟨hlen, hparse, -, -⟩ := jsByteToHex_spec b hb0
    rw [bufToHex_data_cons]
    cases hd : (jsByteToHex b).data with
    | nil => rw [hd] at hlen; simp at hlen
    | cons c1 tl =>
      cases tl with
      | nil => rw [hd] at hlen; simp at hlen
      | cons c2 tl2 =>
        cases tl2 with
        | cons c3 tl3 => rw [hd] at hlen; simp at hlen
        | nil =>
          rw [hd] at hparse
          simp only [List.cons_append, List.nil_append, List.append_eq, parsePairs]
          rw [ih hrest, hparse]

theorem hexToBuf_bufToHex (bs : List Nat) (hb : ∀ b ∈ bs, b < 256) :
    hexToBuf (bufToHex bs) = Except.ok bs := by
  have hlen : (bufToHex bs).length = 2 * bs.length := bufToHex_length bs hb
  unfold hexToBuf
  rw [hlen]
  simp [Nat.mul_mod_right, parsePairs_bufToHex bs hb]

theorem bufToHex_ne_empty (bs : List Nat) (hne : bs ≠ []) (hb : ∀ b ∈ bs, b < 256) :
    bufToHex bs ≠ "" := by
  intro hEq
  have : (bufToHex bs).data.length = 0 := by rw [hEq]; rfl
  rw [bufToHex_length bs hb] at this
  have : bs.length = 0 := by omega
  exact hne (List.length_eq_zero.mp this)

/-! ## Key derivation (PBKDF2 wrappers)

The PBKDF2 primitive is a Web Crypto call; it enters the embedding as a
function parameter taking the hash name, the iteration count, the number of
derived bits, the password and the salt, so the wrappers below record exactly
the arguments the source passes. -/

/-- Shape of the abstract PBKDF2 primitive:
hash name, iterations, derived bits, password, salt, producing key bytes. -/
def Pbkdf2 : Type := String → Nat → Nat → String → List Nat → List Nat

/-- Source `deriveKey` (auth module): PBKDF2 with SHA-256, 100000 iterations,
256 derived bits, hex-encoded result. -/
def deriveKey (pbkdf2 : Pbkdf2) (password : String) (salt : List Nat) : String :=
  bufToHex (pbkdf2 "SHA-256" 100000 256 password salt)

/-- Source `deriveExportKey` (backup-cipher module): PBKDF2 with SHA-256,
100000 iterations, a 256-bit AES-GCM key.  The opaque key object is modelled
by its key material. -/
def deriveExportKey (pbkdf2 : Pbkdf2) (password : String) (salt : List Nat) : List Nat :=
  pbkdf2 "SHA-256" 100000 256 password salt

/-! ## Password credential store -/

/-- A persisted user record (an element of the registered-users array). -/
structure UserRecord where
  id : String
  email : String
  passwordHash : String
  createdAt : Nat
  deriving DecidableEq, Repr

/-- JS `email.toLowerCase()` (ASCII range; the records in the claims use
ASCII emails). -/
def jsToLower (s : String) : String :=
  String.mk (s.data.map Char.toLower)

/-- Source `hashPassword`: derive with a fresh 16-byte random salt and return
the string `saltHex:derivedHex`.  The random salt is lifted to a parameter. -/
def hashPassword (pbkdf2 : Pbkdf2) (salt : List Nat) (password : String) : String :=
  bufToHex salt ++ ":" ++ deriveKey pbkdf2 password salt

/-- Source `verifyCredentials`: look up the first record whose email equals
the lowercased input; return null if absent or if its stored hash is empty;
split the stored hash on `:`, re-derive with the stored salt and compare.
The persisted user list is lifted to a parameter.  `hexToBuf` can throw a
RangeError which this function does not catch, hence the `Except` layer. -/
def verifyCredentials (pbkdf2 : Pbkdf2) (users : List UserRecord)
    (email passwordPlain : String) : Except Unit (Option UserRecord) :=
  match users.find? (fun u => u.email == jsToLower email) with
  | none => Except.ok none
  | some user =>
    if user.passwordHash = "" then Except.ok none
    else
      match jsSplit ':' user.passwordHash with
      | saltHex :: storedHash :: _ =>
        if saltHex = "" ∨ storedHash = "" then Except.ok none
        else
          match hexToBuf saltHex with
          | Except.error e => Except.error e
          | Except.ok salt =>
            Except.ok (if deriveKey pbkdf2 passwordPlain salt = storedHash then some user
              else none)
      | _ => Except.ok none

/-- Source `isEmailRegistered`: case-insensitive (via lowercasing the input)
membership test in the persisted user list. -/
def isEmailRegistered (users : List UserRecord) (email : String) : Bool :=
  users.any (fun u => u.email == jsToLower email)

/-- Source `registerUserLocally`: append a record with the lowercased email.
The random UUID and the clock are lifted to parameters. -/
def registerUserLocally (users : List UserRecord) (newId email passwordHash : String)
    (now : Nat) : String × List UserRecord :=
  (newId, users ++ [⟨newId, jsToLower email, passwordHash, now⟩])

/-! ## Password strength evaluator -/

/-- Result record of `validatePasswordStrength`. -/
structure PasswordStrengthResult where
  score : Nat
  isValid : Bool
  errors : List String
  suggestions : List String
  deriving DecidableEq, Repr

/-- Test for the regex `[A-Z]`. -/
def hasUpper (s : String) : Bool :=
  s.data.any (fun c => decide ('A' ≤ c ∧ c ≤ 'Z'))

/-- Test for the regex `[a-z]`. -/
def hasLower (s : String) : Bool :=
  s.data.any (fun c => decide ('a' ≤ c ∧ c ≤ 'z'))

/-- Test for the regex `[0-9]`. -/
def hasDigit (s : String) : Bool :=
  s.data.any (fun c => decide ('0' ≤ c ∧ c ≤ '9'))

/-- The fixed special-character set of the strength policy. -/
def specialChars : List Char :=
  "!@#$%^&*(),.?\":\x7b\x7d|<>".data

/-- Test for the special-character regex class. -/
def hasSpecial (s : String) : Bool :=
  s.data.any (fun c => specialChars.contains c)

/-- Source `validatePasswordStrength`: one point and one error slot per rule,
score shown as `max 0 (min (score - 1) 4)`, valid when no errors.  JS
`password.length` counts UTF-16 units while `String.length` counts
characters; the two agree on the basic-plane passwords the policy is about. -/
def validatePasswordStrength (password : String) : PasswordStrengthResult :=
  let r1 := decide (password.length ≥ 12)
  let r2 := hasUpper password
  let r3 := hasLower password
  let r4 := hasDigit password
  let r5 := hasSpecial password
  let score : Int :=
    (if r1 then 1 else 0) + (if r2 then 1 else 0) + (if r3 then 1 else 0) +
    (if r4 then 1 else 0) + (if r5 then 1 else 0)
  let errors : List String :=
    (if r1 then [] else ["At least 12 characters"]) ++
    (if r2 then [] else ["One uppercase letter"]) ++
    (if r3 then [] else ["One lowercase letter"]) ++
    (if r4 then [] else ["One number"]) ++
    (if r5 then [] else ["One special character"])
  let finalScore : Int := min (score - 1) 4
  { score := (max 0 finalScore).toNat
    isValid := errors.isEmpty
    errors := errors
    suggestions := [] }

/-- Errors of the signup flow in the login screen. -/
inductive RegisterError
  | duplicateEmail
  | weakPassword
  deriving DecidableEq, Repr

/-- The signup flow of the login screen restricted to the credential store:
reject a case-insensitive duplicate email first, then reject a weak password,
otherwise hash and append the record. -/
def register (pbkdf2 : Pbkdf2) (users : List UserRecord) (newId : String)
    (salt : List Nat) (email password : String) (now : Nat) :
    Except RegisterError (String × List UserRecord) :=
  if isEmailRegistered users email then Except.error RegisterError.duplicateEmail
  else if !(validatePasswordStrength password).isValid then
    Except.error RegisterError.weakPassword
  else Except.ok (registerUserLocally users newId email (hashPassword pbkdf2 salt password) now)

/-! ## Session signer / verifier

The device-wide HMAC-SHA-256 key is created lazily and reused by every sign
and verify call; a keyed invocation of the primitive is therefore modelled as
one abstract function from the signed string to the 32 MAC bytes.  The JSON
layer (`JSON.stringify` on signing, `JSON.parse` on verification) is modelled
by working on the serialized string and by an abstract parser parameter. -/

/-- Source `signSession` on the already-serialized user data: the token is
the payload string, a dot, and the hex-encoded MAC. -/
def signSession (hmac : String → List Nat) (dataStr : String) : String :=
  dataStr ++ "." ++ bufToHex (hmac dataStr)

/-- Body of source `verifySession` before its catch-all: split the token on
`.` and destructure the first two segments, reject empty segments, hex-decode
the signature (this can throw a RangeError, hence `Except`), compare it with
the recomputed MAC, and parse the payload only on a match.  A failing
`JSON.parse` is part of the protected region, so the parser parameter
returning `none` already lands on the null branch. -/
def verifySessionBody {J : Type} (hmac : String → List Nat) (jsonParse : String → Option J)
    (signedSession : String) : Except Unit (Option J) :=
  match jsSplit '.' signedSession with
  | dataStr :: signatureHex :: _ =>
    if dataStr = "" ∨ signatureHex = "" then Except.ok none
    else
      match hexToBuf signatureHex with
      | Except.error e => Except.error e
      | Except.ok signature =>
        Except.ok (if signature = hmac dataStr then jsonParse dataStr else none)
  | _ => Except.ok none

/-- Source `verifySession`: the body above inside `try … catch`, every thrown
error converted to null. -/
def verifySession {J : Type} (hmac : String → List Nat) (jsonParse : String → Option J)
    (signedSession : String) : Option J :=
  match verifySessionBody hmac jsonParse signedSession with
  | Except.error _ => none
  | Except.ok v => v

/-! ## Backup cipher (AES-GCM wrappers)

The AES-GCM primitive enters as two abstract parameters: sealing takes the
key material, the IV and the plaintext string (the UTF-8 encoding is folded
into the abstraction) and yields the ciphertext-plus-tag bytes; opening
yields `some` plaintext or `none` for a failed tag check (the thrown
OperationError). -/

/-- Error taxonomy of `decryptExportData` as thrown by the source: the
explicit format throw, the uncaught RangeError of `hexToBuf` on an odd-length
field, the AES-GCM tag failure, and a JSON-parse failure of the decrypted
bytes. -/
inductive DecryptError
  | malformed
  | rangeError
  | decryptionFailed
  | invalidPayload
  deriving DecidableEq, Repr

/-- Source `encryptExportData` on the already-serialized payload: fresh
16-byte salt and 12-byte IV (lifted to parameters), key derived from the
password and salt, blob `saltHex:ivHex:cipherHex`. -/
def encryptExportData (pbkdf2 : Pbkdf2) (aesEnc : List Nat → List Nat → String → List Nat)
    (salt iv : List Nat) (dataStr password : String) : String :=
  bufToHex salt ++ ":" ++ bufToHex iv ++ ":" ++
    bufToHex (aesEnc (deriveExportKey pbkdf2 password salt) iv dataStr)

/-- Source `decryptExportData`: split on `:` and destructure the first three
segments, throw on a falsy segment, hex-decode the three fields, derive the
key from the supplied password and the extracted salt, open with AES-GCM and
parse the plaintext as JSON. -/
def decryptExportData {J : Type} (pbkdf2 : Pbkdf2)
    (aesDec : List Nat → List Nat → List Nat → Option String)
    (jsonParse : String → Option J) (encryptedStr password : String) :
    Except DecryptError J :=
  match jsSplit ':' encryptedStr with
  | saltHex :: ivHex :: cipherHex :: _ =>
    if saltHex = "" ∨ ivHex = "" ∨ cipherHex = "" then Except.error DecryptError.malformed
    else
      match hexToBuf saltHex with
      | Except.error _ => Except.error DecryptError.rangeError
      | Except.ok salt =>
        match hexToBuf ivHex with
        | Except.error _ => Except.error DecryptError.rangeError
        | Except.ok iv =>
          match hexToBuf cipherHex with
          | Except.error _ => Except.error DecryptError.rangeError
          | Except.ok cipherBuffer =>
            match aesDec (deriveExportKey pbkdf2 password salt) iv cipherBuffer with
            | none => Except.error DecryptError.decryptionFailed
            | some plain =>
              match jsonParse plain with
              | none => Except.error DecryptError.invalidPayload
              | some j => Except.ok j
  | _ => Except.error DecryptError.malformed

/-! ## Input sanitizer -/

/-- JS `s.replace(/c/g, repl)` for a single-character pattern and a
replacement without special patterns. -/
def jsReplaceAll (target : Char) (repl : List Char) : List Char → List Char
  | [] => []
  | c :: rest => (if c = target then repl else [c]) ++ jsReplaceAll target repl rest

/-- The five chained entity replacements of source `sanitizeString`, before
the length cut. -/
def escapeEntities (cs : List Char) : List Char :=
  jsReplaceAll (Char.ofNat 39) "&#039;".data
    (jsReplaceAll (Char.ofNat 34) "&quot;".data
      (jsReplaceAll '>' "&gt;".data
        (jsReplaceAll '<' "&lt;".data
          (jsReplaceAll '&' "&amp;".data cs))))

/-- Source `sanitizeString`: escape, then `slice(0, 100)`. -/
def sanitizeString (input : String) : String :=
  String.mk ((escapeEntities input.data).take 100)

/-! ## Further helper lemmas -/

theorem splitChars_two (sep : Char) (a b : List Char) (ha : sep ∉ a) (hb : sep ∉ b) :
    splitChars sep (a ++ sep :: b) = [a, b] := by
  rw [splitChars_append_of_not_mem sep a _ ha, splitChars_sep_cons,
    splitChars_of_not_mem sep b hb]
  simp [List.modifyHead]

theorem mem_jsReplaceAll {c t : Char} {repl cs : List Char}
    (h : c ∈ jsReplaceAll t repl cs) : c ∈ repl ∨ (c ∈ cs ∧ c ≠ t) := by
  induction cs with
  | nil => simp [jsReplaceAll] at h
  | cons x rest ih =>
    simp only [jsReplaceAll] at h
    rcases List.mem_append.mp h with h1 | h2
    · by_cases hx : x = t
      · rw [if_pos hx] at h1
        exact Or.inl h1
      · rw [if_neg hx] at h1
        have hcx : c = x := by simpa using h1
        exact Or.inr ⟨hcx ▸ List.mem_cons_self x rest, hcx ▸ hx⟩
    · rcases ih h2 with h3 | ⟨h4, h5⟩
      · exact Or.inl h3
      · exact Or.inr ⟨List.mem_cons_of_mem x h4, h5⟩

theorem escapeEntities_no_raw (cs : List Char) (c : Char) (h : c ∈ escapeEntities cs) :
    c ≠ '<' ∧ c ≠ '>' ∧ c ≠ Char.ofNat 34 ∧ c ≠ Char.ofNat 39 := by
  unfold escapeEntities at h
  rcases mem_jsReplaceAll h with h5 | ⟨h5, hne39⟩
  · fin_cases h5 <;> refine ⟨by decide, by decide, by decide, by decide⟩
  rcases mem_jsReplaceAll h5 with h4 | ⟨h4, hne34⟩
  · fin_cases h4 <;> refine ⟨by decide, by decide, by decide, ?_⟩ <;> exact hne39
  rcases mem_jsReplaceAll h4 with h3 | ⟨h3, hneGt⟩
  · fin_cases h3 <;> exact ⟨by decide, by decide, hne34, hne39⟩
  rcases mem_jsReplaceAll h3 with h2 | ⟨h2, hneLt⟩
  · fin_cases h2 <;> exact ⟨by decide, by decide, hne34, hne39⟩
  rcases mem_jsReplaceAll h2 with h1 | ⟨h1, hneAmp⟩
  · fin_cases h1 <;> exact ⟨by decide, by decide, hne34, hne39⟩
  · exact ⟨hneLt, hneGt, hne34, hne39⟩

/-! ## Claim theorems -/

/-- C1 (code bug): the spec claims `verify(sign(userData)) == userData` under
the same signing key for every JSON-serializable `userData`, but
`verifySession` destructures `signedSession.split('.')`, which splits on
every dot, not only the first one.  For any payload whose JSON serialization
contains a dot — such as a user object carrying an email address, exactly
what the app signs — the signature check runs on a truncated payload and the
round trip yields null.  Here the serialized user data is
`\x7b"email":"a@x.com"\x7d` and the keyed HMAC is instaniated with a concrete
32-byte function; the second `.`-segment `com"\x7d` has odd length, so its
hex decoding throws and the catch-all returns null. -/
theorem sessionRoundTrip_email_fails :
    verifySession (fun _ => List.replicate 32 0) (fun s => some s)
      (signSession (fun _ => List.replicate 32 0) "\x7b\"email\":\"a@x.com\"\x7d") = none := by
  decide

/-- C3 (counterexample): an input splitting on `:` into four non-empty fields
does not split into exactly 3 fields, yet `decryptExportData` does not fail
with the malformed-format error: the destructuring keeps the first three
fields, all truthy, and the format check passes (the failure surfaces later,
here as the AES-GCM rejection of the toy opener). -/
theorem decrypt_fourField_not_malformed :
    decryptExportData (J := Unit) (fun _ _ _ _ _ => []) (fun _ _ _ => none) (fun _ => some ())
      "aa:bb:cc:dd" "pw" ≠ Except.error DecryptError.malformed := by
  have h : decryptExportData (J := Unit) (fun _ _ _ _ _ => []) (fun _ _ _ => none)
      (fun _ => some ()) "aa:bb:cc:dd" "pw" = Except.error DecryptError.decryptionFailed := rfl
  rw [h]
  exact fun hEq => DecryptError.noConfusion (Except.error.inj hEq)

/-- C3 (amended): `decryptExportData` fails with `MalformedBackupError`
exactly when the split on `:` yields fewer than three fields or when one of
the first three fields is empty; any input with three or more non-empty
leading fields passes the format check (later stages can only raise the
other error kinds), and in particular an input with exactly 3 non-empty hex
fields proceeds past the format check. -/
theorem decrypt_malformed_iff {J : Type} (pbkdf2 : Pbkdf2)
    (aesDec : List Nat → List Nat → List Nat → Option String)
    (jsonParse : String → Option J) (s pw : String) :
    decryptExportData pbkdf2 aesDec jsonParse s pw = Except.error DecryptError.malformed
    ↔ (match jsSplit ':' s with
       | saltHex :: ivHex :: cipherHex :: _ => saltHex = "" ∨ ivHex = "" ∨ cipherHex = ""
       | _ => True) := by
  unfold decryptExportData
  rcases hsp : jsSplit ':' s with _ | ⟨a, _ | ⟨b, _ | ⟨c, rest⟩⟩⟩
  · exact iff_of_true rfl trivial
  · exact iff_of_true rfl trivial
  · exact iff_of_true rfl trivial
  · by_cases hcond : a = "" ∨ b = "" ∨ c = ""
    · simp [hcond]
    · simp only [hcond, iff_false, if_false]
      cases h1 : hexToBuf a with
      | error e => simp
      | ok salt =>
        cases h2 : hexToBuf b with
        | error e => simp
        | ok iv =>
          cases h3 : hexToBuf c with
          | error e => simp
          | ok ct =>
            cases h4 : aesDec (deriveExportKey pbkdf2 pw salt) iv ct with
            | none => simp [h4]
            | some plain =>
              cases h5 : jsonParse plain with
              | none => simp [h4, h5]
              | some j => simp [h4, h5]

/-- C8: the strength evaluator is valid exactly when all five rules hold
(length at least 12, an uppercase letter, a lowercase letter, a digit, a
special character from the fixed set), its score is the count of satisfied
rules minus one clamped to the interval from 0 to 4, `"short"` is invalid
with a length complaint among the errors, and `"LongEnough123!"` is valid
with score 4. -/
theorem validatePasswordStrength_spec (pw : String) :
    ((validatePasswordStrength pw).isValid =
      (decide (pw.length ≥ 12) && hasUpper pw && hasLower pw && hasDigit pw && hasSpecial pw))
    ∧ (((validatePasswordStrength pw).score : Int) =
      max 0 (min ((([decide (pw.length ≥ 12), hasUpper pw, hasLower pw, hasDigit pw,
        hasSpecial pw].count true : Nat) : Int) - 1) 4))
    ∧ (validatePasswordStrength "short").isValid = false
    ∧ "At least 12 characters" ∈ (validatePasswordStrength "short").errors
    ∧ (validatePasswordStrength "LongEnough123!").isValid = true
    ∧ (validatePasswordStrength "LongEnough123!").score = 4 := by
  refine ⟨?_, ?_, by decide, by decide, by decide, by decide⟩ <;>
    unfold validatePasswordStrength <;>
    cases h1 : decide (pw.length ≥ 12) <;> cases h2 : hasUpper pw <;>
      cases h3 : hasLower pw <;> cases h4 : hasDigit pw <;> cases h5 : hasSpecial pw <;>
      simp [h1, h2, h3, h4, h5]

/-- C10: the sanitizer output never exceeds 100 characters and never contains
a raw angle bracket, double quote or single quote; the 100-character cut is
applied after entity escaping, so an input escaping to more than 100
characters is silently truncated, possibly in the middle of an entity — for
99 letters followed by a raw less-than sign only the bare ampersand of the
inserted entity survives the cut. -/
theorem sanitizeString_spec (s : String) :
    (sanitizeString s).length ≤ 100
    ∧ ((sanitizeString s).data.all
        (fun c => !(['<', '>', Char.ofNat 34, Char.ofNat 39].contains c))) = true
    ∧ sanitizeString (String.mk (List.replicate 99 'a' ++ ['<'])) =
        String.mk (List.replicate 99 'a' ++ ['&'])
    ∧ (escapeEntities (List.replicate 99 'a' ++ ['<'])).length = 103 := by
  refine ⟨?_, ?_, by decide, by decide⟩
  · show ((escapeEntities s.data).take 100).length ≤ 100
    exact le_trans (List.length_take_le 100 _) (le_refl 100)
  · rw [List.all_eq_true]
    intro c hc
    have hcm : c ∈ escapeEntities s.data := List.take_subset 100 _ hc
    obtain ⟨hlt, hgt, h34, h39⟩ := escapeEntities_no_raw s.data c hcm
    simp [List.contains, hlt, hgt, h34, h39]

/-- C2: decrypting the blob produced by encrypting a payload under the same
password recovers the payload.  The payload is represented by its JSON
serialization `dataStr` together with the parsed value `payload`; the AES-GCM
primitive is abstract, assumed only to open what it sealed under the same key
and IV (`hdec`), to produce bytes (`hcb`) and a non-empty ciphertext — the
real primitive always appends a 16-byte tag (`hcne`).  The salt and IV are
the fresh 16- and 12-byte random values drawn by the source. -/
theorem backupRoundTrip {J : Type} (pbkdf2 : Pbkdf2)
    (aesEnc : List Nat → List Nat → String → List Nat)
    (aesDec : List Nat → List Nat → List Nat → Option String)
    (jsonParse : String → Option J) (salt iv : List Nat) (dataStr pw : String) (payload : J)
    (_hpw : 1 ≤ pw.length) (hs16 : salt.length = 16) (hi12 : iv.length = 12)
    (hsb : ∀ b ∈ salt, b < 256) (hib : ∀ b ∈ iv, b < 256)
    (hcb : ∀ b ∈ aesEnc (deriveExportKey pbkdf2 pw salt) iv dataStr, b < 256)
    (hcne : aesEnc (deriveExportKey pbkdf2 pw salt) iv dataStr ≠ [])
    (hdec : aesDec (deriveExportKey pbkdf2 pw salt) iv
      (aesEnc (deriveExportKey pbkdf2 pw salt) iv dataStr) = some dataStr)
    (hparse : jsonParse dataStr = some payload) :
    decryptExportData pbkdf2 aesDec jsonParse
      (encryptExportData pbkdf2 aesEnc salt iv dataStr pw) pw = Except.ok payload := by
  have hdata : (encryptExportData pbkdf2 aesEnc salt iv dataStr pw).data
      = (bufToHex salt).data ++ ':' :: ((bufToHex iv).data ++ ':' ::
        (bufToHex (aesEnc (deriveExportKey pbkdf2 pw salt) iv dataStr)).data) := by
    show ((bufToHex salt ++ ":" ++ bufToHex iv ++ ":" ++ _ : String)).data = _
    rw [string_data_append, string_data_append, string_data_append, string_data_append]
    simp [List.append_assoc]
  have hsplit : jsSplit ':' (encryptExportData pbkdf2 aesEnc salt iv dataStr pw)
      = [bufToHex salt, bufToHex iv,
         bufToHex (aesEnc (deriveExportKey pbkdf2 pw salt) iv dataStr)] := by
    unfold jsSplit
    rw [hdata, splitChars_three ':' _ _ _ (bufToHex_not_mem_colon salt hsb)
      (bufToHex_not_mem_colon iv hib) (bufToHex_not_mem_colon _ hcb)]
    simp [string_mk_data]
  have h1 : ¬ bufToHex salt = "" :=
    bufToHex_ne_empty salt (by intro h; rw [h] at hs16; simp at hs16) hsb
  have h2 : ¬ bufToHex iv = "" :=
    bufToHex_ne_empty iv (by intro h; rw [h] at hi12; simp at hi12) hib
  have h3 : ¬ bufToHex (aesEnc (deriveExportKey pbkdf2 pw salt) iv dataStr) = "" :=
    bufToHex_ne_empty _ hcne hcb
  unfold decryptExportData
  rw [hsplit]
  simp only [h1, h2, h3, or_self, or_false, if_false,
    hexToBuf_bufToHex salt hsb, hexToBuf_bufToHex iv hib, hexToBuf_bufToHex _ hcb,
    hdec, hparse]

/-- C2 witness: a concrete instantiation of the round trip with a toy sealed
box that stores the plaintext under a fixed tag byte. -/
theorem backupRoundTrip_witness :
    decryptExportData (J := String)
      (fun _ _ _ _ _ => List.replicate 32 7)
      (fun _ _ ct => if ct = [9] then some "\x7b\"a\":1\x7d" else none)
      (fun t => some t)
      (encryptExportData (fun _ _ _ _ _ => List.replicate 32 7) (fun _ _ _ => [9])
        (List.replicate 16 1) (List.replicate 12 2) "\x7b\"a\":1\x7d" "pw") "pw"
    = Except.ok "\x7b\"a\":1\x7d" := by
  refine backupRoundTrip _ _ _ _ _ _ _ _ _ (by decide) (by decide) (by decide) ?_ ?_ ?_
    (by decide) (by decide) (by decide)
  · intro b hb
    simp at hb
    omega
  · intro b hb
    simp at hb
    omega
  · intro b hb
    simp at hb
    omega

/-- C4: whenever the AES-GCM opener rejects — which is what the real
primitive does, up to its cryptographic guarantee, for a key derived from a
different password and for any blob whose IV or ciphertext segment has a
flipped hex character, since distinct even-length hex segments decode to
different bytes and the authentication tag then fails — `decryptExportData`
on a three-field blob fails with `DecryptionFailedError` and never returns a
value.  The hypotheses fix the three hex segments of the blob and their
decodings; `hreject` is the single point where the AEAD security of the
primitive enters. -/
theorem decryptRejectsOnAeadFailure {J : Type} (pbkdf2 : Pbkdf2)
    (aesDec : List Nat → List Nat → List Nat → Option String)
    (jsonParse : String → Option J) (saltHex ivHex cipherHex pw : String)
    (salt iv ct : List Nat)
    (hne1 : saltHex ≠ "") (hne2 : ivHex ≠ "") (hne3 : cipherHex ≠ "")
    (hc1 : ':' ∉ saltHex.data) (hc2 : ':' ∉ ivHex.data) (hc3 : ':' ∉ cipherHex.data)
    (hh1 : hexToBuf saltHex = Except.ok salt) (hh2 : hexToBuf ivHex = Except.ok iv)
    (hh3 : hexToBuf cipherHex = Except.ok ct)
    (hreject : aesDec (deriveExportKey pbkdf2 pw salt) iv ct = none) :
    decryptExportData pbkdf2 aesDec jsonParse (saltHex ++ ":" ++ ivHex ++ ":" ++ cipherHex) pw
      = Except.error DecryptError.decryptionFailed := by
  have hdata : (saltHex ++ ":" ++ ivHex ++ ":" ++ cipherHex).data
      = saltHex.data ++ ':' :: (ivHex.data ++ ':' :: cipherHex.data) := by
    rw [string_data_append, string_data_append, string_data_append, string_data_append]
    simp [List.append_assoc]
  have hsplit : jsSplit ':' (saltHex ++ ":" ++ ivHex ++ ":" ++ cipherHex)
      = [saltHex, ivHex, cipherHex] := by
    unfold jsSplit
    rw [hdata, splitChars_three ':' _ _ _ hc1 hc2 hc3]
    simp [string_mk_data]
  unfold decryptExportData
  rw [hsplit]
  simp only [hne1, hne2, hne3, or_self, or_false, if_false, hh1, hh2, hh3, hreject]

/-- C4 witness: a concrete blob whose opener rejects. -/
theorem decryptRejectsOnAeadFailure_witness :
    decryptExportData (J := String) (fun _ _ _ _ _ => List.replicate 32 7)
      (fun _ _ _ => none) (fun t => some t) ("aa" ++ ":" ++ "bb" ++ ":" ++ "cc") "wrongpw"
      = Except.error DecryptError.decryptionFailed :=
  decryptRejectsOnAeadFailure _ _ _ "aa" "bb" "cc" "wrongpw" [170] [187] [204]
    (by decide) (by decide) (by decide) (by decide) (by decide) (by decide)
    rfl rfl rfl rfl

/-- C5: the stored password hash splits on `:` into the hex of the fresh
16-byte random salt and the hex of the key derived by PBKDF2 with SHA-256,
100000 iterations and 256 derived bits — 32 and 64 hex characters
respectively — the salt is recoverable from the stored value exactly as the
verification path decodes it, and the stored value is never the plaintext
password for any password not containing a colon (a password equal to the
stored value would itself have to contain the colon separator).  The 32
derived-key bytes and their range are the shape of the real primitive's
256-bit output. -/
theorem hashPassword_format (pbkdf2 : Pbkdf2) (salt : List Nat) (pw : String)
    (hs16 : salt.length = 16) (hsb : ∀ b ∈ salt, b < 256)
    (hk32 : (pbkdf2 "SHA-256" 100000 256 pw salt).length = 32)
    (hkb : ∀ b ∈ pbkdf2 "SHA-256" 100000 256 pw salt, b < 256) :
    jsSplit ':' (hashPassword pbkdf2 salt pw) = [bufToHex salt, deriveKey pbkdf2 pw salt]
    ∧ (bufToHex salt).length = 32
    ∧ (deriveKey pbkdf2 pw salt).length = 64
    ∧ hexToBuf (bufToHex salt) = Except.ok salt
    ∧ (':' ∉ pw.data → hashPassword pbkdf2 salt pw ≠ pw) := by
  have hdata : (hashPassword pbkdf2 salt pw).data
      = (bufToHex salt).data ++ ':' :: (deriveKey pbkdf2 pw salt).data := by
    show ((bufToHex salt ++ ":" ++ _ : String)).data = _
    rw [string_data_append, string_data_append]
    simp [List.append_assoc]
  have hkey : ':' ∉ (deriveKey pbkdf2 pw salt).data := bufToHex_not_mem_colon _ hkb
  refine ⟨?_, ?_, ?_, hexToBuf_bufToHex salt hsb, ?_⟩
  · unfold jsSplit
    rw [hdata, splitChars_two ':' _ _ (bufToHex_not_mem_colon salt hsb) hkey]
    simp [string_mk_data]
  · show (bufToHex salt).data.length = 32
    rw [bufToHex_length salt hsb, hs16]
  · show (bufToHex (pbkdf2 "SHA-256" 100000 256 pw salt)).data.length = 64
    rw [bufToHex_length _ hkb, hk32]
  · intro hpw hEq
    apply hpw
    rw [← hEq, hdata]
    exact List.mem_append.mpr (Or.inr (List.mem_cons_self ':' _))

/-- C5 witness: concrete salt and a toy derivation function. -/
theorem hashPassword_format_witness :
    jsSplit ':' (hashPassword (fun _ _ _ _ _ => List.replicate 32 7) (List.replicate 16 0) "abc")
      = [bufToHex (List.replicate 16 0),
         deriveKey (fun _ _ _ _ _ => List.replicate 32 7) "abc" (List.replicate 16 0)]
    ∧ (bufToHex (List.replicate 16 0)).length = 32
    ∧ (deriveKey (fun _ _ _ _ _ => List.replicate 32 7) "abc" (List.replicate 16 0)).length = 64
    ∧ hexToBuf (bufToHex (List.replicate 16 0)) = Except.ok (List.replicate 16 0)
    ∧ (':' ∉ "abc".data →
        hashPassword (fun _ _ _ _ _ => List.replicate 32 7) (List.replicate 16 0) "abc" ≠ "abc") :=
  hashPassword_format _ _ _ (by decide) (by intro b hb; simp at hb; omega) (by decide)
    (by intro b hb; simp at hb; omega)

/-- C6: credential verification looks up by lowercased email and returns
null, not an error, when no record matches; when a record is found, its
stored hash is split into salt and hash, the key is re-derived from the
stored salt and the supplied plaintext, and the record is returned if and
only if the derived value equals the stored hash exactly. -/
theorem verifyCredentials_spec (pbkdf2 : Pbkdf2) (users : List UserRecord)
    (email pw : String) :
    ((∀ u ∈ users, u.email ≠ jsToLower email) →
      verifyCredentials pbkdf2 users email pw = Except.ok none)
    ∧ (∀ u, users.find? (fun v => v.email == jsToLower email) = some u →
        ∀ saltHex storedHash salt,
          u.passwordHash = saltHex ++ ":" ++ storedHash →
          ':' ∉ saltHex.data → ':' ∉ storedHash.data → saltHex ≠ "" → storedHash ≠ "" →
          hexToBuf saltHex = Except.ok salt →
          verifyCredentials pbkdf2 users email pw =
            Except.ok (if deriveKey pbkdf2 pw salt = storedHash then some u else none)) := by
  constructor
  · intro h
    unfold verifyCredentials
    have hfind : users.find? (fun v => v.email == jsToLower email) = none := by
      rw [List.find?_eq_none]
      intro u hu
      simpa using h u hu
    rw [hfind]
  · intro u hfind saltHex storedHash salt hph hc1 hc2 hne1 hne2 hhex
    have hdata : u.passwordHash.data = saltHex.data ++ ':' :: storedHash.data := by
      rw [hph, string_data_append, string_data_append]
      simp [List.append_assoc]
    have hphne : ¬ u.passwordHash = "" := by
      intro hEq
      rw [hEq] at hdata
      exact absurd hdata.symm (by simp)
    have hsplit : jsSplit ':' u.passwordHash = [saltHex, storedHash] := by
      unfold jsSplit
      rw [hdata, splitChars_two ':' _ _ hc1 hc2]
      simp [string_mk_data]
    unfold verifyCredentials
    rw [hfind]
    simp only [hphne, if_false, hsplit, hne1, hne2, or_self, or_false, hhex]

/-- C6 witness: a one-record store with a toy derivation function; the looked
up email is a case variation of the stored one. -/
theorem verifyCredentials_spec_witness :
    verifyCredentials (fun _ _ _ _ _ => [7]) [⟨"id1", "bob@x.com", "00:07", 0⟩]
      "nobody@x.com" "pw" = Except.ok none
    ∧ verifyCredentials (fun _ _ _ _ _ => [7]) [⟨"id1", "bob@x.com", "00:07", 0⟩]
      "Bob@X.com" "pw" =
        Except.ok (if deriveKey (fun _ _ _ _ _ => [7]) "pw" [0] = "07"
          then some ⟨"id1", "bob@x.com", "00:07", 0⟩ else none) :=
  ⟨(verifyCredentials_spec (fun _ _ _ _ _ => [7]) [⟨"id1", "bob@x.com", "00:07", 0⟩]
      "nobody@x.com" "pw").1 (by decide),
   (verifyCredentials_spec (fun _ _ _ _ _ => [7]) [⟨"id1", "bob@x.com", "00:07", 0⟩]
      "Bob@X.com" "pw").2 ⟨"id1", "bob@x.com", "00:07", 0⟩ (by decide) "00" "07" [0]
      (by decide) (by decide) (by decide) (by decide) (by decide) rfl⟩

/-- C7: after a registration for some email succeeds, a second registration
with any case variation of the same email fails with `DuplicateEmailError`,
and the store after the first registration holds exactly one record with that
lowercased email (the failing attempt returns no store at all, so no second
record is ever added). -/
theorem registerDuplicateEmail (pbkdf2 : Pbkdf2) (users : List UserRecord)
    (id1 id2 : String) (salt1 salt2 : List Nat) (e1 e2 pw1 pw2 : String) (t1 t2 : Nat)
    (newId : String) (users' : List UserRecord)
    (hcase : jsToLower e2 = jsToLower e1)
    (hreg : register pbkdf2 users id1 salt1 e1 pw1 t1 = Except.ok (newId, users')) :
    register pbkdf2 users' id2 salt2 e2 pw2 t2 = Except.error RegisterError.duplicateEmail
    ∧ (users'.filter (fun u => u.email == jsToLower e1)).length = 1 := by
  unfold register at hreg
  by_cases hdup : isEmailRegistered users e1
  · rw [if_pos hdup] at hreg
    exact absurd hreg (by simp)
  · rw [if_neg hdup] at hreg
    by_cases hstr : (validatePasswordStrength pw1).isValid
    · rw [if_neg (by simp [hstr])] at hreg
      have hpair := Except.ok.inj hreg
      have husers : users' = users ++ [⟨id1, jsToLower e1, hashPassword pbkdf2 salt1 pw1, t1⟩] := by
        have h2 := congrArg Prod.snd hpair
        simpa [registerUserLocally] using h2.symm
      have hnone : ∀ u ∈ users, (u.email == jsToLower e1) = false := by
        intro u hu
        by_contra hBad
        apply hdup
        unfold isEmailRegistered
        rw [List.any_eq_true]
        refine ⟨u, hu, ?_⟩
        revert hBad
        cases u.email == jsToLower e1 <;> simp
      have hreg2 : isEmailRegistered users' e2 = true := by
        unfold isEmailRegistered
        rw [husers, List.any_append]
        refine Bool.or_eq_true _ _ |>.mpr (Or.inr ?_)
        simp [hcase]
      constructor
      · unfold register
        rw [if_pos hreg2]
      · rw [husers, List.filter_append]
        have h1 : users.filter (fun u => u.email == jsToLower e1) = [] :=
          List.filter_eq_nil_iff.mpr (fun u hu => by simp [hnone u hu])
        rw [h1]
        simp
    · rw [if_pos (by simp [hstr])] at hreg
      exact absurd hreg (by simp)

/-- C7 witness: registering `a@x.com` into an empty store, then registering
`A@X.com`. -/
theorem registerDuplicateEmail_witness :
    register (fun _ _ _ _ _ => List.replicate 32 7)
      ([⟨"id1", "a@x.com", hashPassword (fun _ _ _ _ _ => List.replicate 32 7)
        (List.replicate 16 0) "LongEnough123!", 0⟩] : List UserRecord)
      "id2" (List.replicate 16 1) "A@X.com" "pw2" 1 = Except.error RegisterError.duplicateEmail
    ∧ (([⟨"id1", "a@x.com", hashPassword (fun _ _ _ _ _ => List.replicate 32 7)
        (List.replicate 16 0) "LongEnough123!", 0⟩] : List UserRecord).filter
        (fun u => u.email == jsToLower "a@x.com")).length = 1 :=
  registerDuplicateEmail (fun _ _ _ _ _ => List.replicate 32 7) [] "id1" "id2"
    (List.replicate 16 0) (List.replicate 16 1) "a@x.com" "A@X.com" "LongEnough123!" "pw2" 0 1
    "id1"
    ([⟨"id1", "a@x.com", hashPassword (fun _ _ _ _ _ => List.replicate 32 7)
      (List.replicate 16 0) "LongEnough123!", 0⟩] : List UserRecord)
    (by decide) rfl

/-- C9: session verification fails closed — `verifySession` is a total
function into an option type whose catch-all converts every internal throw
(such as the RangeError of an odd-length signature field) into null, and it
returns a value only when the token splits into a non-empty payload and a
non-empty signature segment, the signature hex-decodes, the decoded bytes
equal the recomputed MAC over the payload, and the payload parses; in every
other case — parse error, malformed token shape or signature mismatch — it
returns null and never throws to the caller. -/
theorem verifySession_failsClosed {J : Type} (hmac : String → List Nat)
    (jsonParse : String → Option J) (tok : String) (j : J)
    (h : verifySession hmac jsonParse tok = some j) :
    ∃ dataStr sigHex rest signature,
      jsSplit '.' tok = dataStr :: sigHex :: rest ∧ dataStr ≠ "" ∧ sigHex ≠ "" ∧
      hexToBuf sigHex = Except.ok signature ∧ signature = hmac dataStr ∧
      jsonParse dataStr = some j := by
  unfold verifySession at h
  rcases hsp : jsSplit '.' tok with _ | ⟨d, _ | ⟨sg, rest⟩⟩
  · have hb : verifySessionBody hmac jsonParse tok = Except.ok none := by
      unfold verifySessionBody
      rw [hsp]
    rw [hb] at h
    exact Option.noConfusion (show (none : Option J) = some j from h)
  · have hb : verifySessionBody hmac jsonParse tok = Except.ok none := by
      unfold verifySessionBody
      rw [hsp]
    rw [hb] at h
    exact Option.noConfusion (show (none : Option J) = some j from h)
  · have hb : verifySessionBody hmac jsonParse tok
        = (if d = "" ∨ sg = "" then Except.ok none
          else match hexToBuf sg with
            | Except.error e => Except.error e
            | Except.ok signature =>
              Except.ok (if signature = hmac d then jsonParse d else none)) := by
      unfold verifySessionBody
      rw [hsp]
    rw [hb] at h
    by_cases hd : d = "" ∨ sg = ""
    · rw [if_pos hd] at h
      exact Option.noConfusion (show (none : Option J) = some j from h)
    · rw [if_neg hd] at h
      rcases not_or.mp hd with ⟨hd1, hd2⟩
      cases hhex : hexToBuf sg with
      | error e =>
        rw [hhex] at h
        exact Option.noConfusion (show (none : Option J) = some j from h)
      | ok sig =>
        rw [hhex] at h
        have h' : (if sig = hmac d then jsonParse d else none) = some j := h
        by_cases hcmp : sig = hmac d
        · rw [if_pos hcmp] at h'
          exact ⟨d, sg, rest, sig, rfl, hd1, hd2, hhex, hcmp, h'⟩
        · rw [if_neg hcmp] at h'
          exact Option.noConfusion h'

/-- C9 witness: a validly signed token over a dot-free payload. -/
theorem verifySession_failsClosed_witness :
    ∃ dataStr sigHex rest signature,
      jsSplit '.' (signSession (fun _ => List.replicate 32 0) "userdata")
        = dataStr :: sigHex :: rest ∧ dataStr ≠ "" ∧ sigHex ≠ "" ∧
      hexToBuf sigHex = Except.ok signature ∧ signature = List.replicate 32 0 ∧
      some dataStr = some "userdata" :=
  verifySession_failsClosed (fun _ => List.replicate 32 0) (fun s => some s)
    (signSession (fun _ => List.replicate 32 0) "userdata") "userdata" (by decide)

end Settle
